import Mathlib

/-!
Verification of the entity-annotation pipeline of the Legal-Dashboard
repository (`app/services/ner/gemini.py` and `app/judgments/routes.py`).

Strings are modelled as `List Char`; HTML documents as a forest-shaped
inductive (`HTree`); machine integers the provider may return as `Int`;
HTTP traffic of `_call_gemini_json` as a function from attempt number to a
recorded response.  Every definition is a direct translation of the Python
source; deviations (e.g. the ASCII fragment of `str.upper`/`str.strip`,
fuel-based recursion replacing a `while` loop) are noted where they occur.
-/

namespace LegalDash

/-- Strings are modelled as lists of characters. -/
abbrev Str := List Char

/-- ASCII whitespace, the fragment of Python's `str.strip()` class relevant
to this code base (`' '`, `'\t'`, `'\n'`, `'\r'`, `'\x0b'`, `'\x0c'`). -/
def isPySpace (c : Char) : Bool :=
  c = ' ' || c = '\t' || c = '\n' || c = '\r' || c = '\x0b' || c = '\x0c'

/-- Python `s.strip()`: remove leading and trailing whitespace. -/
def pyStrip (s : Str) : Str :=
  ((s.dropWhile isPySpace).reverse.dropWhile isPySpace).reverse

/-- Python `s.upper()` on the ASCII range: map `'a'..'z'` to `'A'..'Z'`,
leave every other character unchanged (as `Char.toUpper` does). -/
def pyUpper (c : Char) : Char :=
  if 97 ≤ c.toNat ∧ c.toNat ≤ 122 then Char.ofNat (c.toNat - 32) else c

/-- Python slice `s[i:j]` (for `0 ≤ i`, `0 ≤ j`). -/
def pySlice (s : Str) (i j : Nat) : Str := (s.take j).drop i

/-- Python slice `s[i:]`. -/
def pyDrop (s : Str) (i : Nat) : Str := s.drop i

theorem pySlice_append (s : Str) {i j : Nat} (h : i ≤ j) :
    pySlice s i j ++ pyDrop s j = pyDrop s i := by
  unfold pySlice pyDrop
  rw [List.drop_take]
  have h2 : s.drop j = (s.drop i).drop (j - i) := by
    rw [List.drop_drop]; congr 1; omega
  rw [h2, List.take_append_drop]

/-! ### The chunker `GeminiNER._chunks` -/

/-- `slice_.rfind(". ")`: index of the last occurrence of `". "` in the
string, `none` when absent (Python returns `-1`). -/
def rfindDotSpace : Str → Option Nat
  | [] => none
  | [_] => none
  | c1 :: c2 :: rest =>
    match rfindDotSpace (c2 :: rest) with
    | some r => some (r + 1)
    | none => if c1 = '.' ∧ c2 = ' ' then some 0 else none

/-- The cut position chosen for one slice:
`cut = slice_.rfind(". "); if cut == -1 or cut < int(0.5 * len(slice_)):
cut = len(slice_)`.  (`int(0.5 * n)` is `n / 2` in `Nat`.) -/
def cutAt (slice : Str) : Nat :=
  match rfindDotSpace slice with
  | none => slice.length
  | some r => if r < slice.length / 2 then slice.length else r

theorem rfindDotSpace_add_two_le :
    ∀ {s : Str} {r : Nat}, rfindDotSpace s = some r → r + 2 ≤ s.length
  | [], r, h => by simp [rfindDotSpace] at h
  | [_], r, h => by simp [rfindDotSpace] at h
  | c1 :: c2 :: rest, r, h => by
    rw [rfindDotSpace] at h
    match h3 : rfindDotSpace (c2 :: rest) with
    | some r0 =>
      rw [h3] at h
      have ih := rfindDotSpace_add_two_le h3
      simp at h
      simp only [List.length_cons] at *
      omega
    | none =>
      rw [h3] at h
      by_cases hc : c1 = '.' ∧ c2 = ' '
      · rw [if_pos hc] at h
        simp at h
        simp only [List.length_cons]
        omega
      · rw [if_neg hc] at h
        exact absurd h (by simp)

theorem cutAt_pos {slice : Str} (h : slice ≠ []) : 1 ≤ cutAt slice := by
  have hlen : 0 < slice.length := List.length_pos.mpr h
  rcases hr : rfindDotSpace slice with - | r
  · simp only [cutAt, hr]
    omega
  · have h2 := rfindDotSpace_add_two_le hr
    simp only [cutAt, hr]
    split <;> omega

theorem cutAt_le (slice : Str) : cutAt slice ≤ slice.length := by
  rcases hr : rfindDotSpace slice with - | r
  · simp [cutAt, hr]
  · have h2 := rfindDotSpace_add_two_le hr
    simp only [cutAt, hr]
    split <;> omega

/-- The body of the `while cur < len(text)` loop of `_chunks`, with the
remaining text passed explicitly and a fuel argument bounding the number of
iterations (`rem.length` iterations always suffice because each step
consumes at least one character whenever `max_chars ≥ 1`; for
`max_chars = 0` the Python loop does not terminate, and the model returns
early when the fuel runs out or the cut makes no progress). -/
def chunksGo (maxc : Nat) : Nat → Str → List Str
  | 0, _ => []
  | fuel + 1, rem =>
    if rem = [] then []
    else
      let slice := rem.take maxc
      let cut := cutAt slice
      if cut = 0 then []
      else slice.take cut :: chunksGo maxc fuel (rem.drop cut)

/-- `GeminiNER._chunks(text, max_chars)`. -/
def _chunks (text : Str) (maxc : Nat) : List Str :=
  if text.length ≤ maxc then [text] else chunksGo maxc text.length text

theorem chunksGo_join (maxc : Nat) (hm : 1 ≤ maxc) :
    ∀ (fuel : Nat) (rem : Str), rem.length ≤ fuel →
      (chunksGo maxc fuel rem).flatten = rem := by
  intro fuel
  induction fuel with
  | zero =>
    intro rem h
    have : rem = [] := List.length_eq_zero.mp (by omega)
    simp [chunksGo, this]
  | succ n ih =>
    intro rem h
    rw [chunksGo]
    by_cases hrem : rem = []
    · simp [hrem]
    · rw [if_neg hrem]
      have hslice : rem.take maxc ≠ [] := by
        simp only [ne_eq, List.take_eq_nil_iff]
        push_neg
        exact ⟨by omega, hrem⟩
      have hcut1 : 1 ≤ cutAt (rem.take maxc) := cutAt_pos hslice
      have hcne : ¬(cutAt (rem.take maxc) = 0) := by omega
      simp only [hcne, if_false, List.flatten_cons]
      have hcle : cutAt (rem.take maxc) ≤ maxc := by
        have := cutAt_le (rem.take maxc)
        have h2 : (rem.take maxc).length ≤ maxc := by simp
        omega
      have htt : (rem.take maxc).take (cutAt (rem.take maxc)) =
          rem.take (cutAt (rem.take maxc)) := by
        rw [List.take_take]
        congr 1
        omega
      rw [htt]
      have hdl : (rem.drop (cutAt (rem.take maxc))).length ≤ n := by
        simp only [List.length_drop]
        have : 1 ≤ rem.length := List.length_pos.mpr hrem
        omega
      rw [ih _ hdl, List.take_append_drop]

theorem chunks_flatten (text : Str) (maxc : Nat) (hm : 1 ≤ maxc) :
    (_chunks text maxc).flatten = text := by
  unfold _chunks
  split
  · simp
  · exact chunksGo_join maxc hm text.length text le_rfl

/-! ### Span sorting and the greedy non-overlap merge -/

/-- A corpus-global span `(start, end, label)`; offsets are non-negative
once they have passed the validation in `extract_spans`. -/
abbrev Span := Nat × Nat × Str

/-- The order used by `spans.sort(key=lambda x: (x[0], x[1]))`: lexicographic
on `(start, end)`, ignoring the label. -/
def spanLE (x y : Span) : Prop :=
  x.1 < y.1 ∨ (x.1 = y.1 ∧ x.2.1 ≤ y.2.1)

instance : DecidableRel spanLE := fun x y => by
  unfold spanLE; infer_instance

instance : IsTotal Span spanLE := ⟨by intro a b; unfold spanLE; omega⟩

instance : IsTrans Span spanLE := ⟨by intro a b c; unfold spanLE; omega⟩

/-- Python's `list.sort` is stable, so any stable sort with the same key
produces the same list; insertion sort is stable. -/
def sortSpans (l : List Span) : List Span := List.insertionSort spanLE l

/-- The single left-to-right pass
`for s, e, L in spans: if s >= last_end: merged.append((s, e, L)); last_end = e`
with `last_end` starting at `-1` (hence modelled as an `Int`). -/
def greedyGo (lastEnd : Int) : List Span → List Span
  | [] => []
  | (s, e, L) :: rest =>
    if lastEnd ≤ (s : Int) then (s, e, L) :: greedyGo (e : Int) rest
    else greedyGo lastEnd rest

/-- `sort + non-overlap merge` as it appears (twice, verbatim) in
`extract_spans` and in the per-node projection of `annotate_html`. -/
def mergeSpans (l : List Span) : List Span := greedyGo (-1) (sortSpans l)

theorem greedyGo_mem {y : Span} :
    ∀ {l : List Span} {c : Int}, y ∈ greedyGo c l → y ∈ l
  | [], c, h => by simp [greedyGo] at h
  | (s, e, L) :: rest, c, h => by
    rw [greedyGo] at h
    split at h
    · rcases List.mem_cons.mp h with h1 | h1
      · exact h1 ▸ List.mem_cons_self _ _
      · exact List.mem_cons_of_mem _ (greedyGo_mem h1)
    · exact List.mem_cons_of_mem _ (greedyGo_mem h)

/-- Chain invariant produced by the greedy pass: each kept span starts at or
after the bound, and (given valid inputs) ends strictly after it starts. -/
def ChainI : Int → List Span → Prop
  | _, [] => True
  | c, (a, b, _) :: tl => c ≤ (a : Int) ∧ a < b ∧ ChainI (b : Int) tl

theorem greedyGo_chainI :
    ∀ (l : List Span) (c : Int), (∀ x ∈ l, x.1 < x.2.1) → ChainI c (greedyGo c l)
  | [], c, _ => by simp [greedyGo, ChainI]
  | (s, e, L) :: rest, c, h => by
    rw [greedyGo]
    split
    · refine ⟨by assumption, ?_, ?_⟩
      · exact h (s, e, L) (List.mem_cons_self _ _)
      · exact greedyGo_chainI rest (e : Int) (fun x hx => h x (List.mem_cons_of_mem _ hx))
    · exact greedyGo_chainI rest c (fun x hx => h x (List.mem_cons_of_mem _ hx))

/-- Every element of the sorted list is an element of the input. -/
theorem mem_sortSpans {x : Span} {l : List Span} (h : x ∈ sortSpans l) : x ∈ l :=
  (List.perm_insertionSort spanLE l).mem_iff.mp h

theorem mergeSpans_chainI (l : List Span) (h : ∀ x ∈ l, x.1 < x.2.1) :
    ChainI (-1) (mergeSpans l) :=
  greedyGo_chainI _ _ (fun x hx => h x (mem_sortSpans hx))

theorem mergeSpans_mem {x : Span} {l : List Span} (h : x ∈ mergeSpans l) : x ∈ l :=
  mem_sortSpans (greedyGo_mem h)

/-- Non-overlap of two spans, as stated in the spec:
no `(s1,e1),(s2,e2)` with `s1 < e2 and s2 < e1`. -/
def noOverlap (x y : Span) : Prop := ¬(x.1 < y.2.1 ∧ y.1 < x.2.1)

theorem greedyGo_start_ge :
    ∀ {l : List Span} {c : Int}, List.Pairwise (fun x y : Span => x.1 ≤ y.1) l →
      ∀ y ∈ greedyGo c l, c ≤ (y.1 : Int)
  | [], c, _, y, hy => by simp [greedyGo] at hy
  | (s, e, L) :: rest, c, hp, y, hy => by
    rw [greedyGo] at hy
    rcases List.pairwise_cons.mp hp with ⟨hhead, htail⟩
    split at hy
    · rcases List.mem_cons.mp hy with h1 | h1
      · subst h1; assumption
      · have hmem := greedyGo_mem h1
        have := hhead y hmem
        omega
    · exact greedyGo_start_ge htail y hy

theorem greedyGo_pairwise :
    ∀ {l : List Span} {c : Int}, List.Pairwise (fun x y : Span => x.1 ≤ y.1) l →
      List.Pairwise noOverlap (greedyGo c l)
  | [], c, _ => by simp [greedyGo]
  | (s, e, L) :: rest, c, hp => by
    rw [greedyGo]
    rcases List.pairwise_cons.mp hp with ⟨hhead, htail⟩
    split
    · refine List.pairwise_cons.mpr ⟨?_, greedyGo_pairwise htail⟩
      intro y hy
      have := greedyGo_start_ge htail y hy
      show ¬(s < y.2.1 ∧ y.1 < e)
      omega
    · exact greedyGo_pairwise htail

theorem greedyGo_sublist :
    ∀ (l : List Span) (c : Int), (greedyGo c l).Sublist l
  | [], c => by simp [greedyGo]
  | (s, e, L) :: rest, c => by
    rw [greedyGo]
    split
    · exact (greedyGo_sublist rest _).cons₂ _
    · exact (greedyGo_sublist rest _).cons _

theorem sortSpans_pairwise_start (l : List Span) :
    List.Pairwise (fun x y : Span => x.1 ≤ y.1) (sortSpans l) := by
  have hs := List.sorted_insertionSort spanLE l
  exact List.Pairwise.imp (fun {a b} hab => by unfold spanLE at hab; omega) hs

theorem mergeSpans_pairwise_noOverlap (l : List Span) :
    List.Pairwise noOverlap (mergeSpans l) :=
  greedyGo_pairwise (sortSpans_pairwise_start l)

theorem mergeSpans_sorted_start (l : List Span) :
    List.Pairwise (fun x y : Span => x.1 ≤ y.1) (mergeSpans l) :=
  List.Pairwise.sublist (greedyGo_sublist (sortSpans l) (-1)) (sortSpans_pairwise_start l)

/-! ### The HTML document model and `annotate_html` -/

/-- An HTML forest: a sequence of sibling nodes, each either a text node
(`NavigableString`) or an element (`Tag`) with a tag name, a `class` list
and children.  A whole document is an `HTree` (the children of
BeautifulSoup's root, whose tag name is `"[document]"`). -/
inductive HTree where
  | nil : HTree
  | text (s : Str) (rest : HTree) : HTree
  | elem (name : Str) (classes : List Str) (children : HTree) (rest : HTree) : HTree
deriving DecidableEq

/-- `_SKIP_TAGS`. -/
def SKIP_TAGS : List Str :=
  ["script", "style", "noscript", "code", "pre", "svg", "canvas", "iframe"].map
    String.data

/-- The name BeautifulSoup gives the document root (itself a `Tag`). -/
def docRoot : Str := "[document]".data

/-- The delimiter `"\n¶\n"` inserted between concatenated node texts. -/
def delim : Str := ['\n', '¶', '\n']

/-- `dlen = len(delim)`. -/
def dlen : Nat := delim.length

/-- Eligibility of a text node during the extraction pass of
`annotate_html`: the parent tag's name is not a skip tag, the parent does
not already carry the `ner` class, and the trimmed text has at least two
characters. -/
def eligText (pn : Str) (pcs : List Str) (s : Str) : Bool :=
  ¬(pn ∈ SKIP_TAGS) && ¬("ner".data ∈ pcs) && decide (2 ≤ (pyStrip s).length)

/-- The extraction pass: the texts of all eligible text nodes in document
order (`soup.find_all(string=True)` is a pre-order traversal). -/
def collectTexts (pn : Str) (pcs : List Str) : HTree → List Str
  | .nil => []
  | .text s r =>
    (if eligText pn pcs s then [s] else []) ++ collectTexts pn pcs r
  | .elem n cs ch r => collectTexts n cs ch ++ collectTexts pn pcs r

/-- Clipping the global span list to one node's window
(`ls = max(0, s - nstart)`, `le = min(len(ntext), e - nstart)`, keeping
the span if `ls < le`; `Nat` subtraction is exactly `max(0, ·)` here). -/
def clipToNode (spans : List Span) (nstart nend nlen : Nat) : List Span :=
  spans.filterMap fun x =>
    if x.2.1 ≤ nstart ∨ nend ≤ x.1 then none
    else if x.1 - nstart < min nlen (x.2.1 - nstart) then
      some (x.1 - nstart, min nlen (x.2.1 - nstart), x.2.2)
    else none

/-- The entity wrapper created for one merged node-local span:
`<span class="ner ner-LABEL" data-entity="LABEL">` holding the covered
text as its only child. -/
def nerWrap (L : Str) (t : Str) (rest : HTree) : HTree :=
  .elem "span".data ["ner".data, "ner-".data ++ L] (.text t .nil) rest

/-- The fragment construction of `annotate_html`: walk the merged node
spans left to right, emitting the literal gap before each span (when
non-empty), the wrapped span text, and finally the literal tail. -/
def buildFrags (s : Str) (cur : Nat) (ms : List Span) (rest : HTree) : HTree :=
  match ms with
  | [] => if cur < s.length then .text (pyDrop s cur) rest else rest
  | (a, b, L) :: tl =>
    if cur < a then
      .text (pySlice s cur a) (nerWrap L (pySlice s a b) (buildFrags s b tl rest))
    else nerWrap L (pySlice s a b) (buildFrags s b tl rest)

/-- The corpus cursor after traversing a forest: each eligible text node
advances it by the node length plus the delimiter length, exactly as the
`offsets` bookkeeping of `annotate_html` does. -/
def advCursor (pn : Str) (pcs : List Str) (cursor : Nat) : HTree → Nat
  | .nil => cursor
  | .text s r =>
    advCursor pn pcs (if eligText pn pcs s then cursor + s.length + dlen else cursor) r
  | .elem n cs ch r => advCursor pn pcs (advCursor n cs cursor ch) r

/-- The projection pass of `annotate_html`: for each eligible text node,
clip the global spans to the node window, re-sort and re-merge, and replace
the node by its fragments; every other node is kept untouched. -/
def annotateGo (spans : List Span) (pn : Str) (pcs : List Str) (cursor : Nat) :
    HTree → HTree
  | .nil => .nil
  | .text s r =>
    if eligText pn pcs s then
      if (clipToNode spans cursor (cursor + s.length) s.length).isEmpty then
        .text s (annotateGo spans pn pcs (cursor + s.length + dlen) r)
      else
        buildFrags s 0 (mergeSpans (clipToNode spans cursor (cursor + s.length) s.length))
          (annotateGo spans pn pcs (cursor + s.length + dlen) r)
    else .text s (annotateGo spans pn pcs cursor r)
  | .elem n cs ch r =>
    .elem n cs (annotateGo spans n cs cursor ch)
      (annotateGo spans pn pcs (advCursor n cs cursor ch) r)

/-- `GeminiNER.annotate_html`, parametrised by `spansFor`, the function
from the concatenated corpus to the merged global span list (in the source
this is `extract_spans` applied to the provider's answers; the claims
quantify over the provider, so the whole composition is a parameter).
When no eligible text node exists the document is returned as is (the
source returns `str(soup)`, the serialisation of the unmodified tree). -/
def annotate_html (spansFor : Str → List Span) (doc : HTree) : HTree :=
  if (collectTexts docRoot [] doc).isEmpty then doc
  else
    annotateGo (spansFor (List.intercalate delim (collectTexts docRoot [] doc)))
      docRoot [] 0 doc

/-- The plain text of a document: all text node contents in document
order. -/
def plainText : HTree → Str
  | .nil => []
  | .text s r => s ++ plainText r
  | .elem _ _ ch r => plainText ch ++ plainText r

/-! ### Losslessness of the projection -/

/-- `Nat`-valued chain invariant: the spans are pairwise disjoint, in
order, and each is non-degenerate, starting from `cur`. -/
def NChain : Nat → List Span → Prop
  | _, [] => True
  | cur, (a, b, _) :: tl => cur ≤ a ∧ a < b ∧ NChain b tl

theorem chainI_nchain : ∀ (ms : List Span) (c : Nat), ChainI (c : Int) ms → NChain c ms
  | [], _, _ => trivial
  | (a, b, L) :: tl, c, h => by
    obtain ⟨h1, h2, h3⟩ := h
    exact ⟨by exact_mod_cast h1, h2, chainI_nchain tl b h3⟩

theorem chainI_neg_one_nchain {ms : List Span} (h : ChainI (-1) ms) : NChain 0 ms := by
  match ms with
  | [] => trivial
  | (a, b, L) :: tl =>
    obtain ⟨-, h2, h3⟩ := h
    exact ⟨Nat.zero_le _, h2, chainI_nchain tl b h3⟩

theorem clipToNode_lt {spans : List Span} {nstart nend nlen : Nat} {x : Span}
    (h : x ∈ clipToNode spans nstart nend nlen) : x.1 < x.2.1 := by
  rw [clipToNode, List.mem_filterMap] at h
  obtain ⟨a, -, ha⟩ := h
  split at ha
  · simp at ha
  · split at ha
    · simp only [Option.some.injEq] at ha
      subst ha
      simp only []
      omega
    · simp at ha

theorem plainText_buildFrags (s : Str) :
    ∀ (ms : List Span) (cur : Nat) (rest : HTree), NChain cur ms →
      plainText (buildFrags s cur ms rest) = pyDrop s cur ++ plainText rest
  | [], cur, rest, _ => by
    rw [buildFrags]
    split
    · rw [plainText]
    · have : pyDrop s cur = [] := List.drop_eq_nil_of_le (by omega)
      rw [this, List.nil_append]
  | (a, b, L) :: tl, cur, rest, hch => by
    obtain ⟨h1, h2, h3⟩ := hch
    rw [buildFrags]
    have hinner :
        plainText (nerWrap L (pySlice s a b) (buildFrags s b tl rest)) =
          pyDrop s a ++ plainText rest := by
      rw [nerWrap, plainText, plainText, plainText, List.append_nil,
        plainText_buildFrags s tl b rest h3, ← List.append_assoc,
        pySlice_append s (le_of_lt h2)]
    split
    · rw [plainText, hinner, ← List.append_assoc, pySlice_append s h1]
    · have hcur : cur = a := by omega
      rw [hinner, hcur]

theorem nchain_merge_clip (spans : List Span) (nstart nend nlen : Nat) :
    NChain 0 (mergeSpans (clipToNode spans nstart nend nlen)) :=
  chainI_neg_one_nchain
    (mergeSpans_chainI _ (fun _ hx => clipToNode_lt hx))

theorem plainText_annotateGo (spans : List Span) :
    ∀ (t : HTree) (pn : Str) (pcs : List Str) (cursor : Nat),
      plainText (annotateGo spans pn pcs cursor t) = plainText t
  | .nil, _, _, _ => rfl
  | .text s r, pn, pcs, cursor => by
    rw [annotateGo]
    split
    · split
      · rw [plainText, plainText, plainText_annotateGo spans r]
      · rw [plainText_buildFrags s _ 0 _ (nchain_merge_clip spans _ _ _),
          plainText, plainText_annotateGo spans r]
        rfl
    · rw [plainText, plainText, plainText_annotateGo spans r]
  | .elem n cs ch r, pn, pcs, cursor => by
    rw [annotateGo, plainText, plainText,
      plainText_annotateGo spans ch, plainText_annotateGo spans r]

/-- C1: Losslessness of annotation — for every HTML document and every
global span list produced by the provider pipeline (the claim quantifies
over stub providers, hence over arbitrary `spansFor`), `annotate_html`
preserves the document's plain text character for character: within each
eligible text node the emitted literal and entity-wrapped fragments
concatenate, in order, to the node's original text, and every other node's
text is untouched, so the concatenated plain text of the whole document is
unchanged. -/
theorem C1_annotate_html_lossless (spansFor : Str → List Span) (doc : HTree) :
    plainText (annotate_html spansFor doc) = plainText doc := by
  unfold annotate_html
  split
  · rfl
  · exact plainText_annotateGo _ doc _ _ _

/-- C7: No-op on documents without eligible text — when the extraction
pass finds no eligible text node (empty document, or every text node under
a skip tag or a `ner` wrapper, or trimmed length below two), `annotate_html`
returns its input unchanged, for every provider: in particular no provider
call can influence the result, modelling that none is made. -/
theorem C7_noop_without_eligible_text (doc : HTree)
    (h : collectTexts docRoot [] doc = []) :
    ∀ spansFor : Str → List Span, annotate_html spansFor doc = doc := by
  intro spansFor
  unfold annotate_html
  rw [h]
  rfl

/-- A document with no eligible text node: a text inside a `script` tag, a
text inside an existing `ner` wrapper, and a top-level text of trimmed
length one. -/
def noEligDoc : HTree :=
  .elem "script".data [] (.text "hello world".data .nil)
    (.elem "span".data ["ner".data, "ner-ORG".data] (.text "Acme Corp".data .nil)
      (.text " x ".data .nil))

theorem C7_noop_witness :
    annotate_html (fun _ => [(0, 5, ['X'])]) noEligDoc = noEligDoc :=
  C7_noop_without_eligible_text noEligDoc (by decide) _

/-- The document of the idempotence counterexample: one top-level text
node `"ab cd"`. -/
def exDoc : HTree := .text "ab cd".data .nil

/-- A provider stub answering every corpus with the single span
`(0, 2, "X")`. -/
def exProv : Str → List Span := fun _ => [(0, 2, ['X'])]

/-- C2 counterexample: `annotate(annotate(doc)) ≠ annotate(doc)` for a
concrete document and provider stub.  The first pass wraps `"ab"`; the
literal remainder `" cd"` is still an eligible text node on the second
pass, so the stub's span wraps `" c"` inside it and the result differs. -/
theorem C2_idempotence_counterexample :
    annotate_html exProv (annotate_html exProv exDoc) ≠
      annotate_html exProv exDoc := by
  decide

/-- C2 amended: `annotate_html` skips every text node whose parent element
carries the `ner` class, so a second pass never double-wraps: an entity
wrapper produced by a first pass (a `span.ner` whose single child is the
covered text) passes through any later pass verbatim and contributes
nothing to the extracted corpus — but full idempotence
`annotate(annotate(doc)) = annotate(doc)` does not hold in general,
because literal fragments outside the wrappers are re-submitted to the
provider and may receive new annotations. -/
theorem C2_amended_ner_nodes_skipped (spans : List Span) (pn : Str)
    (pcs : List Str) (cursor : Nat) (L t : Str) (rest : HTree) :
    annotateGo spans pn pcs cursor (nerWrap L t rest) =
      nerWrap L t (annotateGo spans pn pcs cursor rest) ∧
    collectTexts pn pcs (nerWrap L t rest) = collectTexts pn pcs rest := by
  constructor
  · rw [nerWrap, annotateGo]
    rw [annotateGo, if_neg (by simp [eligText]), annotateGo, advCursor,
      if_neg (by simp [eligText]), advCursor]
    rfl
  · rw [nerWrap, collectTexts, collectTexts,
      if_neg (by simp [eligText]), collectTexts]
    rfl

/-! ### `extract_spans`: validation, rebasing, global merge -/

/-- A raw provider item `{"start": int, "end": int, "label": str}` after
`int(...)`/`str(...)` coercion: Python integers may be negative, so the
offsets are `Int`; the label is the uncoerced string. -/
abbrev RawItem := Int × Int × Str

/-- The per-item validation and rebasing of `extract_spans`:
`lab = str(it.get("label", "")).upper().strip()`; the item is kept when
`lab and e > s and s >= 0 and e <= len(chunk)` and rebased by the chunk's
base offset. -/
def validSpan (chunkLen offset : Nat) (it : RawItem) : Option Span :=
  if pyStrip (it.2.2.map pyUpper) ≠ [] ∧ it.1 < it.2.1 ∧ 0 ≤ it.1 ∧
      it.2.1 ≤ (chunkLen : Int) then
    some (it.1.toNat + offset, it.2.1.toNat + offset, pyStrip (it.2.2.map pyUpper))
  else none

/-- The chunk loop of `extract_spans`: call the provider on each chunk
(`prov` models `_call_gemini_json`'s successful answer, `[]` standing for
both an empty span array and a swallowed `HTTPError`), validate and rebase
each item, and advance `offset` by the chunk length. -/
def collectValid (prov : Str → List RawItem) : List Str → Nat → List Span
  | [], _ => []
  | c :: cs, offset =>
    (prov c).filterMap (validSpan c.length offset) ++
      collectValid prov cs (offset + c.length)

/-- `GeminiNER.extract_spans(text, labels, max_chars)` on the non-raising
path, parametrised by the provider's per-chunk answers.  The prompt/labels
only influence the provider, and the TTL cache stores exactly the value
computed here, so both are outside the model. -/
def extract_spans (prov : Str → List RawItem) (text : Str) (maxc : Nat) :
    List Span :=
  if (pyStrip text).isEmpty then []
  else mergeSpans (collectValid prov (_chunks text maxc) 0)

theorem collectValid_bounds {prov : Str → List RawItem} {x : Span} :
    ∀ {cs : List Str} {offset : Nat}, x ∈ collectValid prov cs offset →
      x.1 < x.2.1 ∧ x.2.1 ≤ offset + (cs.map List.length).sum ∧ x.2.2 ≠ [] ∧
        ∃ c ∈ cs, ∃ it ∈ prov c, x.2.2 = pyStrip (it.2.2.map pyUpper)
  | [], offset, h => by simp [collectValid] at h
  | c :: cs, offset, h => by
    rw [collectValid] at h
    rcases List.mem_append.mp h with h1 | h1
    · rw [List.mem_filterMap] at h1
      obtain ⟨it, hit, hv⟩ := h1
      rw [validSpan] at hv
      split at hv
      · simp only [Option.some.injEq] at hv
        subst hv
        rename_i hcond
        obtain ⟨h1, h2, h3, h4⟩ := hcond
        refine ⟨?_, ?_, h1, c, List.mem_cons_self _ _, it, hit, rfl⟩
        · simp only []
          omega
        · simp only [List.map_cons, List.sum_cons]
          have : it.2.1.toNat ≤ c.length := Int.toNat_le.mpr h4
          omega
      · simp at hv
    · obtain ⟨ha, hb, hne, c0, hc0, hrest⟩ := collectValid_bounds h1
      refine ⟨ha, ?_, hne, c0, List.mem_cons_of_mem _ hc0, hrest⟩
      simp only [List.map_cons, List.sum_cons]
      omega

theorem extract_spans_mem_bounds {prov : Str → List RawItem} {text : Str}
    {maxc : Nat} {x : Span} (hm : 1 ≤ maxc)
    (h : x ∈ extract_spans prov text maxc) :
    x.1 < x.2.1 ∧ x.2.1 ≤ text.length ∧ x.2.2 ≠ [] ∧
      ∃ c ∈ _chunks text maxc, ∃ it ∈ prov c,
        x.2.2 = pyStrip (it.2.2.map pyUpper) := by
  rw [extract_spans] at h
  split at h
  · simp at h
  · have h1 := mergeSpans_mem h
    obtain ⟨ha, hb, hne, hc⟩ := collectValid_bounds h1
    refine ⟨ha, ?_, hne, hc⟩
    have hsum : ((_chunks text maxc).map List.length).sum = text.length := by
      rw [← List.length_flatten, chunks_flatten text maxc hm]
    omega

/-- C3: Merge non-overlap and order — for every input span list, the
sort-then-greedy merge step (shared by `extract_spans` and the per-node
projection) returns a list with no two spans `(s1,e1),(s2,e2)` satisfying
`s1 < e2 ∧ s2 < e1`, sorted ascending by start, whose every element is an
input span (overlapping spans are dropped entirely, never merged into a
wider span); on the spec's scenario the earliest-starting span `(0,10,A)`
is kept and `(5,15,B)` dropped. -/
theorem C3_merge_nonoverlap_sorted :
    (∀ l : List Span,
      List.Pairwise noOverlap (mergeSpans l) ∧
      List.Pairwise (fun x y : Span => x.1 ≤ y.1) (mergeSpans l) ∧
      ∀ x ∈ mergeSpans l, x ∈ l) ∧
    mergeSpans [(0, 10, ['A']), (5, 15, ['B'])] = [(0, 10, ['A'])] := by
  refine ⟨fun l => ⟨mergeSpans_pairwise_noOverlap l, mergeSpans_sorted_start l,
    fun x hx => mergeSpans_mem hx⟩, ?_⟩
  decide

/-- C4: Chunk exhaustiveness — for every text and every `max_chars ≥ 1`,
concatenating the chunks of `_chunks(text, max_chars)` in order reproduces
the text exactly, and when the text fits in one chunk the result is the
single chunk containing the whole text. -/
theorem C4_chunks_exhaustive (text : Str) (maxc : Nat) (hm : 1 ≤ maxc) :
    (_chunks text maxc).flatten = text ∧
      (text.length ≤ maxc → _chunks text maxc = [text]) := by
  refine ⟨chunks_flatten text maxc hm, fun hle => ?_⟩
  rw [_chunks, if_pos hle]

theorem C4_chunks_exhaustive_witness :
    (_chunks "One. Two. Three.".data 10).flatten = "One. Two. Three.".data ∧
      ("One. Two. Three.".data.length ≤ 10 →
        _chunks "One. Two. Three.".data 10 = ["One. Two. Three.".data]) :=
  C4_chunks_exhaustive "One. Two. Three.".data 10 (by decide)

/-- C8: Span validity invariant — every span returned by `extract_spans`
satisfies `0 ≤ start < end ≤ len(text)` (`0 ≤ start` holds by the `Nat`
type) and carries a non-empty label: provider items with an empty
normalised label, `end ≤ start`, `start < 0` or `end` beyond the owning
chunk are silently discarded, and survivors are rebased by the chunk's
base offset into the corpus-global range. -/
theorem C8_span_validity (prov : Str → List RawItem) (text : Str) (maxc : Nat)
    (sp : Span) (hm : 1 ≤ maxc) (h : sp ∈ extract_spans prov text maxc) :
    sp.1 < sp.2.1 ∧ sp.2.1 ≤ text.length ∧ sp.2.2 ≠ [] := by
  obtain ⟨h1, h2, hne, -⟩ := extract_spans_mem_bounds hm h
  exact ⟨h1, h2, hne⟩

/-- A provider stub for the witnesses: one item with a negative start (is
discarded), one valid item with a lowercase, whitespace-padded label. -/
def provW : Str → List RawItem :=
  fun _ => [((-1 : Int), 2, ['a']), (0, 2, [' ', 'o', 'r', 'g', ' '])]

theorem C8_span_validity_witness :
    (0, 2, ['O', 'R', 'G']).1 < (0, 2, ['O', 'R', 'G']).2.1 ∧
      (0, 2, ['O', 'R', 'G']).2.1 ≤ "abcd".data.length ∧
      (0, 2, ['O', 'R', 'G']).2.2 ≠ [] :=
  C8_span_validity provW "abcd".data 10 (0, 2, ['O', 'R', 'G'])
    (by decide) (by decide)

/-! ### Label normalisation -/

theorem toNat_ofNat_valid {n : Nat} (h : Nat.isValidChar n) :
    (Char.ofNat n).toNat = n := by
  rw [Char.ofNat, dif_pos h]
  rfl

/-- `str.upper()` never produces an ASCII lowercase letter. -/
theorem pyUpper_not_lower (c : Char) :
    ¬(97 ≤ (pyUpper c).toNat ∧ (pyUpper c).toNat ≤ 122) := by
  unfold pyUpper
  split
  · rename_i h
    have hv : Nat.isValidChar (c.toNat - 32) := Or.inl (by omega)
    rw [toNat_ofNat_valid hv]
    omega
  · rename_i h
    omega

theorem head?_dropWhile {p : Char → Bool} :
    ∀ {l : Str} {c : Char}, (List.dropWhile p l).head? = some c → p c = false
  | [], c, h => by simp [List.dropWhile] at h
  | a :: tl, c, h => by
    rw [List.dropWhile_cons] at h
    split at h
    · exact head?_dropWhile h
    · rename_i hpa
      simp only [List.head?_cons, Option.some.injEq] at h
      subst h
      simpa using hpa

theorem getLast?_dropWhile {p : Char → Bool} :
    ∀ {l : Str}, List.dropWhile p l ≠ [] →
      (List.dropWhile p l).getLast? = l.getLast?
  | [], h => by simp [List.dropWhile] at h
  | a :: tl, h => by
    rw [List.dropWhile_cons]
    rw [List.dropWhile_cons] at h
    split
    · rename_i hpa
      rw [if_pos hpa] at h
      match tl, h with
      | b :: l, h =>
        rw [List.getLast?_cons_cons]
        exact getLast?_dropWhile h
    · rfl

theorem mem_pyStrip {c : Char} {l : Str} (h : c ∈ pyStrip l) : c ∈ l := by
  rw [pyStrip, List.mem_reverse] at h
  have h1 := (List.dropWhile_sublist isPySpace).mem h
  rw [List.mem_reverse] at h1
  exact (List.dropWhile_sublist isPySpace).mem h1

theorem head?_pyStrip {l : Str} {c : Char} (h : (pyStrip l).head? = some c) :
    isPySpace c = false := by
  rw [pyStrip, List.head?_reverse] at h
  have hne : List.dropWhile isPySpace (List.dropWhile isPySpace l).reverse ≠ [] := by
    intro h0
    rw [h0] at h
    simp at h
  rw [getLast?_dropWhile hne, List.getLast?_reverse] at h
  exact head?_dropWhile h

theorem getLast?_pyStrip {l : Str} {c : Char} (h : (pyStrip l).getLast? = some c) :
    isPySpace c = false := by
  rw [pyStrip, List.getLast?_reverse] at h
  exact head?_dropWhile h

/-- C10 (implicit): Label normalisation — every label in a span returned by
`extract_spans` is a provider-supplied label string uppercased and stripped
of surrounding whitespace; consequently no label (hence no generated
`ner-<LABEL>` class or `data-entity` attribute) contains an ASCII lowercase
letter (`97 ≤ code ≤ 122`) or leading/trailing whitespace. -/
theorem C10_label_normalized (prov : Str → List RawItem) (text : Str)
    (maxc : Nat) (sp : Span) (hm : 1 ≤ maxc)
    (h : sp ∈ extract_spans prov text maxc) :
    (∃ c ∈ _chunks text maxc, ∃ it ∈ prov c,
        sp.2.2 = pyStrip (it.2.2.map pyUpper)) ∧
    (∀ c ∈ sp.2.2, ¬(97 ≤ c.toNat ∧ c.toNat ≤ 122)) ∧
    (∀ c, sp.2.2.head? = some c → isPySpace c = false) ∧
    (∀ c, sp.2.2.getLast? = some c → isPySpace c = false) := by
  obtain ⟨-, -, -, c0, hc0, it, hit, hlab⟩ := extract_spans_mem_bounds hm h
  refine ⟨⟨c0, hc0, it, hit, hlab⟩, ?_, ?_, ?_⟩
  · intro c hc
    rw [hlab] at hc
    obtain ⟨d, -, hd⟩ := List.mem_map.mp (mem_pyStrip hc)
    rw [← hd]
    exact pyUpper_not_lower d
  · intro c hc
    rw [hlab] at hc
    exact head?_pyStrip hc
  · intro c hc
    rw [hlab] at hc
    exact getLast?_pyStrip hc

theorem C10_label_normalized_witness :
    (∃ c ∈ _chunks "abcd".data 10, ∃ it ∈ provW c,
        (0, 2, ['O', 'R', 'G']).2.2 = pyStrip (it.2.2.map pyUpper)) ∧
    (∀ c ∈ (0, 2, ['O', 'R', 'G']).2.2, ¬(97 ≤ c.toNat ∧ c.toNat ≤ 122)) ∧
    (∀ c, (0, 2, ['O', 'R', 'G']).2.2.head? = some c → isPySpace c = false) ∧
    (∀ c, (0, 2, ['O', 'R', 'G']).2.2.getLast? = some c → isPySpace c = false) :=
  C10_label_normalized provW "abcd".data 10 (0, 2, ['O', 'R', 'G'])
    (by decide) (by decide)

/-! ### `_call_gemini_json`: retry, backoff, rate-limit surfacing

The HTTP exchange is modelled as a function from the attempt number
(1-based) to the recorded response: its status code, the result of the
whole 200-parsing `try` block (`none` when anything in it fails, i.e. a
malformed body), and the integer value of the `Retry-After` header
(`int(resp.headers.get("Retry-After", "0") or "0")`, so `0` when absent).
Backoff durations are kept in half-seconds so that the exact values
`1.5, 3.0, 6.0, ...` stay in `Nat`: the initial `backoff = 1.5` is `3`
halves and `int(math.ceil(backoff))` is `(halves + 1) / 2`.  The sleeps
trace records, for each 429 that is retried, the pre-jitter base
`(retry_after or backoff)` in half-seconds (the actual sleep multiplies
this by the random jitter factor `1.2 + 0.4 * random()`, which is outside
a deterministic model; `time.sleep(0.75 * attempt)` after non-429 errors
is not part of the trace). -/

structure GResponse where
  status : Nat
  parsed : Option (List RawItem)
  retryAfter : Nat

/-- The outcome of `_call_gemini_json`: a span list, a raised
`RateLimitError(retry_after=…)`, or a raised `requests.HTTPError`. -/
inductive CallOutcome where
  | ok (spans : List RawItem)
  | rateLimited (retryAfter : Nat)
  | httpError (status : Nat)
deriving DecidableEq

/-- The attempt loop of `_call_gemini_json`.  The first argument is the
number of attempts still available (`fuel = 0` after the last attempt, so
inside an iteration `fuel = 0` means `attempt == max_retries`); the loop
falling off the end returns `[]`. -/
def callGo (resp : Nat → GResponse) : Nat → Nat → Nat → CallOutcome × List Nat
  | 0, _, _ => (.ok [], [])
  | fuel + 1, attempt, backoffH =>
    if (resp attempt).status = 200 then
      match (resp attempt).parsed with
      | some arr => (.ok arr, [])
      | none => (.ok [], [])
    else if (resp attempt).status = 429 then
      if fuel = 0 then
        (.rateLimited
          (if (resp attempt).retryAfter ≠ 0 then (resp attempt).retryAfter
           else (backoffH + 1) / 2), [])
      else
        ((callGo resp fuel (attempt + 1) (backoffH * 2)).1,
          (if (resp attempt).retryAfter ≠ 0 then (resp attempt).retryAfter * 2
           else backoffH) ::
            (callGo resp fuel (attempt + 1) (backoffH * 2)).2)
    else
      if fuel = 0 ∧ 400 ≤ (resp attempt).status then
        (.httpError (resp attempt).status, [])
      else callGo resp fuel (attempt + 1) backoffH

/-- `GeminiNER._call_gemini_json(prompt, text, max_retries)`: run the loop
from attempt 1 with `backoff = 1.5` (3 half-seconds). -/
def _call_gemini_json (resp : Nat → GResponse) (maxRetries : Nat) :
    CallOutcome × List Nat :=
  callGo resp maxRetries 1 3

theorem callGo_ok_of_malformed (resp : Nat → GResponse) :
    ∀ (fuel attempt backoffH k : Nat), attempt ≤ k → k < attempt + fuel →
      (∀ i, attempt ≤ i → i < k → (resp i).status ≠ 200) →
      (resp k).status = 200 → (resp k).parsed = none →
      (callGo resp fuel attempt backoffH).1 = .ok []
  | 0, attempt, backoffH, k, h1, h2, hpre, h200, hmal => by
    rw [callGo]
  | fuel + 1, attempt, backoffH, k, h1, h2, hpre, h200, hmal => by
    rw [callGo]
    by_cases hk : attempt = k
    · subst hk
      rw [if_pos h200, hmal]
    · have hlt : attempt < k := by omega
      have hf0 : fuel ≠ 0 := by omega
      have hne := hpre attempt le_rfl hlt
      rw [if_neg hne]
      have hpre' : ∀ i, attempt + 1 ≤ i → i < k → (resp i).status ≠ 200 :=
        fun i hi1 hi2 => hpre i (by omega) hi2
      by_cases h429 : (resp attempt).status = 429
      · rw [if_pos h429, if_neg hf0]
        exact callGo_ok_of_malformed resp fuel (attempt + 1) (backoffH * 2) k
          (by omega) (by omega) hpre' h200 hmal
      · rw [if_neg h429]
        have hf : ¬(fuel = 0 ∧ 400 ≤ (resp attempt).status) := by
          rintro ⟨hz, -⟩
          exact hf0 hz
        rw [if_neg hf]
        exact callGo_ok_of_malformed resp fuel (attempt + 1) backoffH k
          (by omega) (by omega) hpre' h200 hmal

/-- C5: Malformed success response yields zero spans — whenever some
attempt `k` (within the retry budget of 3) receives HTTP 200 with a body
the `try` block cannot parse into the expected JSON span array, and every
earlier attempt was a retried non-200, `_call_gemini_json` returns the
empty list — it neither raises nor retries the malformed answer, so
annotation of the remaining chunks proceeds. -/
theorem C5_malformed_200_empty (resp : Nat → GResponse) (k : Nat)
    (h1 : 1 ≤ k) (h2 : k ≤ 3)
    (hpre : ∀ i, 1 ≤ i → i < k → (resp i).status ≠ 200)
    (h200 : (resp k).status = 200) (hmal : (resp k).parsed = none) :
    (_call_gemini_json resp 3).1 = .ok [] :=
  callGo_ok_of_malformed resp 3 1 3 k h1 (by omega) hpre h200 hmal

/-- A transcript for the C5 witness: a 429, then a 200 whose body does not
parse. -/
def respMalformed : Nat → GResponse :=
  fun i => if i = 1 then ⟨429, none, 0⟩ else ⟨200, none, 0⟩

theorem C5_malformed_200_empty_witness :
    (_call_gemini_json respMalformed 3).1 = .ok [] :=
  C5_malformed_200_empty respMalformed 2 (by decide) (by decide)
    (by intro i hi1 hi2
        have hi : i = 1 := by omega
        subst hi
        decide)
    (by decide) (by decide)

/-- C6: Rate-limit exhaustion — if every one of the 3 attempts receives
HTTP 429, `_call_gemini_json` raises `RateLimitError` (a distinct,
catchable outcome) whose `retry_after` field holds the server's last
`Retry-After` value, or the current backoff ceiling `ceil(6.0) = 6` when
the server gave none; and before the last attempt each 429 is followed by
a backoff sleep (the trace has one entry per non-final 429) whose
pre-jitter base grows exponentially (`1.5` then `3.0` seconds, i.e. `3`
then `6` half-seconds) when no `Retry-After` is given, rather than an
immediate failure. -/
theorem C6_rate_limit_exhaustion (resp : Nat → GResponse)
    (h : ∀ i, 1 ≤ i → i ≤ 3 → (resp i).status = 429) :
    _call_gemini_json resp 3 =
      (.rateLimited
        (if (resp 3).retryAfter ≠ 0 then (resp 3).retryAfter else 6),
       [if (resp 1).retryAfter ≠ 0 then (resp 1).retryAfter * 2 else 3,
        if (resp 2).retryAfter ≠ 0 then (resp 2).retryAfter * 2 else 6]) := by
  have h1 := h 1 (by omega) (by omega)
  have h2 := h 2 (by omega) (by omega)
  have h3 := h 3 (by omega) (by omega)
  simp only [_call_gemini_json, callGo, h1, h2, h3]
  norm_num

/-- A transcript for the C6 witness: three 429s with no `Retry-After`
header. -/
def resp429 : Nat → GResponse := fun _ => ⟨429, none, 0⟩

theorem C6_rate_limit_exhaustion_witness :
    _call_gemini_json resp429 3 = (.rateLimited 6, [3, 6]) := by
  have := C6_rate_limit_exhaustion resp429 (fun i _ _ => rfl)
  simpa using this

/-! ### Stampede protection in `api_ner_html` (`app/judgments/routes.py`)

`_get_doc_lock(doc_id)` hands every caller for the same document the same
`threading.Lock`, so the `with lock:` bodies of concurrent requests execute
serially; the model therefore runs the two critical sections in sequence,
threading the persisted `content_ner_html` field (`none` = absent) through.
Inside the lock the route re-checks the store, serves the cached value when
its stripped text is non-empty, and otherwise runs the engine
(`annotate_html` is invoked only when `cleaned` is non-empty) and persists
the result.  The returned triple is (response html, number of annotation
computations — i.e. of per-chunk provider round-trip batches — performed,
new store state). -/

def nerCriticalSection (annot : Str → Str) (cleaned : Str) (db : Option Str) :
    Str × Nat × Option Str :=
  match db with
  | some pre =>
    if (pyStrip pre).isEmpty then
      if cleaned.isEmpty then (cleaned, 0, some cleaned)
      else (annot cleaned, 1, some (annot cleaned))
    else (pre, 0, some pre)
  | none =>
    if cleaned.isEmpty then (cleaned, 0, some cleaned)
    else (annot cleaned, 1, some (annot cleaned))

/-- C9: Stampede collapse — two concurrent annotation requests for the
same document serialise on the per-document lock; the later caller
re-checks the persisted cache after acquiring it, finds the first caller's
stored result and returns it, so the annotation computation (and with it
the provider round trip per chunk) happens exactly once, not twice.
Stated for any engine whose output has non-empty stripped text on the
given non-empty cleaned HTML, which holds for the serialised tree of any
real document. -/
theorem C9_stampede_collapse (annot : Str → Str) (cleaned : Str)
    (hc : cleaned ≠ []) (ha : pyStrip (annot cleaned) ≠ []) :
    (nerCriticalSection annot cleaned
        (nerCriticalSection annot cleaned none).2.2).1 =
      (nerCriticalSection annot cleaned none).1 ∧
    (nerCriticalSection annot cleaned none).2.1 +
      (nerCriticalSection annot cleaned
        (nerCriticalSection annot cleaned none).2.2).2.1 = 1 := by
  rw [nerCriticalSection]
  rw [if_neg (by simpa using hc)]
  simp only []
  rw [nerCriticalSection, if_neg (by simpa using ha)]
  exact ⟨rfl, rfl⟩

theorem C9_stampede_collapse_witness :
    (nerCriticalSection (fun _ => "<p>x</p>".data) "<p>x</p>".data
        (nerCriticalSection (fun _ => "<p>x</p>".data) "<p>x</p>".data none).2.2).1 =
      (nerCriticalSection (fun _ => "<p>x</p>".data) "<p>x</p>".data none).1 ∧
    (nerCriticalSection (fun _ => "<p>x</p>".data) "<p>x</p>".data none).2.1 +
      (nerCriticalSection (fun _ => "<p>x</p>".data) "<p>x</p>".data
        (nerCriticalSection (fun _ => "<p>x</p>".data) "<p>x</p>".data none).2.2).2.1 = 1 :=
  C9_stampede_collapse (fun _ => "<p>x</p>".data) "<p>x</p>".data
    (by decide) (by decide)

end LegalDash
